import Mathlib

/-!
# Verification of the Vana sync engine (src/src-tauri/src/git.rs, commands.rs)

Shallow embedding of the git-backed synchronization engine of the Vana
repository.  Commits are content-addressed: two commits with identical
data receive the same object id (`writeCommit` returns an existing id when
the data is already stored, and a fresh id otherwise).  Trees are modelled
as flat path-to-blob-content association lists, which is a faithful
quotient of git's hierarchical content-addressed trees for equality and
membership purposes.  External `git` subprocess invocations
(`git rebase`, `git merge --squash`, `git commit`, `git status`,
`git add -A`, `git push`) are modelled as pure functions on the repository
state following git's documented behaviour; the network is passed in as
explicit data (`RemoteData` for fetch, `PushOutcome` for push).
-/

namespace Vana

/-- Object id in the content-addressed store (stands for the SHA-1 hash). -/
abbrev ObjectId := Nat

/-- A tree: flat association of repo-relative paths to blob contents.
This is the canonical flattening of git's hierarchical trees
(`create_tree_from_index_entries` builds the hierarchy from exactly this
data, and content addressing makes equal flat data yield equal trees). -/
abbrev Tree := List (String × String)

/-- Commit object data as written by `create_commit_object`:
tree, parent ids, author/committer signature, message, timestamp. -/
structure CommitData where
  tree : Tree
  parents : List ObjectId
  author : String
  message : String
  time : Nat
deriving DecidableEq

/-- The object store, mapping object ids to commit data. -/
abbrev Store := List (ObjectId × CommitData)

/-- An entry of the staging index: repo-relative path and blob content
(the stat metadata and file mode kept by the source do not affect any
behaviour modelled here). -/
structure IndexEntry where
  path : String
  content : String
deriving DecidableEq

/-- HEAD: symbolic reference to a branch, or detached at a commit. -/
inductive Head where
  | symbolic (branch : String)
  | detached (id : ObjectId)
deriving DecidableEq

/-- Push outcome oracle: the result of the external `git push` transport. -/
inductive PushOutcome where
  | ok
  | rejectedNonFastForward
  | transportError (msg : String)
deriving DecidableEq

/-- The full repository state: object store, local branch refs
(`refs/heads/*`), remote-tracking refs (`refs/remotes/origin/*`, keyed by
branch name), HEAD, the staging index, the working tree (path to content
for every file on disk), the persistent configuration's remote URLs
(`.git/config`), and the rebase-in-progress marker git keeps on disk
during a conflicted rebase (with the pre-rebase branch position). -/
structure RepoState where
  store : Store
  branches : List (String × ObjectId)
  remoteBranches : List (String × ObjectId)
  head : Head
  index : List IndexEntry
  worktree : List (String × String)
  remotes : List (String × String)
  rebaseOpen : Bool
  rebaseSaved : Option (String × ObjectId)
deriving DecidableEq

/-- Overwrite the value at a key in an association list, appending when
the key is absent (the net effect of the source's `.git` ref-file and
config-file writes). -/
def setKey {α : Type} : List (String × α) → String → α → List (String × α)
  | [], k, v => [(k, v)]
  | (k', v') :: rest, k, v =>
    if k' = k then (k, v) :: rest else (k', v') :: setKey rest k v

theorem lookup_setKey_self {α : Type} (l : List (String × α)) (k : String) (v : α) :
    (setKey l k v).lookup k = some v := by
  induction l with
  | nil => simp [setKey, List.lookup]
  | cons p rest ih =>
    by_cases h : p.1 = k
    · simp [setKey, h, List.lookup]
    · simp only [setKey]
      rw [if_neg (by exact h)]
      simp only [List.lookup]
      have : (k == p.1) = false := by
        simp [beq_iff_eq]
        exact fun hh => h hh.symm
      simp [this, ih]

theorem lookup_setKey_ne {α : Type} (l : List (String × α)) (k k' : String) (v : α)
    (h : k' ≠ k) : (setKey l k v).lookup k' = l.lookup k' := by
  induction l with
  | nil =>
    have h1 : (k' == k) = false := by simp [h]
    simp [setKey, List.lookup, h1]
  | cons p rest ih =>
    by_cases hp : p.1 = k
    · have h1 : (k' == k) = false := by simp [h]
      have h2 : (k' == p.1) = false := by rw [hp]; exact h1
      simp only [setKey, if_pos hp, List.lookup, h1, h2]
    · simp only [setKey]
      rw [if_neg hp]
      simp only [List.lookup]
      cases hb : (k' == p.1) with
      | true => rfl
      | false => exact ih

/-- Byte-wise (here: char-wise) comparison of paths, as git orders index
entries. -/
def charListLe : List Char → List Char → Bool
  | [], _ => true
  | _ :: _, [] => false
  | a :: as, b :: bs => if a = b then charListLe as bs else decide (a < b)

/-- Path order for index entries. -/
def pathLe (a b : String) : Bool := charListLe a.data b.data

/-- Insertion into a path-sorted index. -/
def insertEntry (e : IndexEntry) : List IndexEntry → List IndexEntry
  | [] => [e]
  | x :: xs => if pathLe e.path x.path then e :: x :: xs else x :: insertEntry e xs

/-- Sort index entries by path (the source calls `sort_entries` on the
rebuilt index; the sorting algorithm itself is irrelevant). -/
def sortIndex : List IndexEntry → List IndexEntry
  | [] => []
  | x :: xs => insertEntry x (sortIndex xs)

theorem perm_insertEntry (e : IndexEntry) (l : List IndexEntry) :
    List.Perm (insertEntry e l) (e :: l) := by
  induction l with
  | nil => simp [insertEntry]
  | cons x xs ih =>
    simp only [insertEntry]
    cases h : pathLe e.path x.path
    · rw [if_neg (by simp [h])]
      exact List.Perm.trans (ih.cons x) (List.Perm.swap e x xs)
    · rw [if_pos (by simp [h])]

theorem perm_sortIndex (l : List IndexEntry) : List.Perm (sortIndex l) l := by
  induction l with
  | nil => simp [sortIndex]
  | cons x xs ih =>
    exact List.Perm.trans (perm_insertEntry x (sortIndex xs)) (ih.cons x)

theorem mem_sortIndex {e : IndexEntry} {l : List IndexEntry} :
    e ∈ sortIndex l ↔ e ∈ l := (perm_sortIndex l).mem_iff

/-- Smallest id strictly greater than every id in the store: the model of
allocating the hash of an object not yet present. -/
def freshId (store : Store) : ObjectId :=
  store.foldr (fun p m => max (p.1 + 1) m) 0

theorem freshId_cons (q : ObjectId × CommitData) (rest : Store) :
    freshId (q :: rest) = max (q.1 + 1) (freshId rest) := rfl

theorem lt_freshId {store : Store} {p : ObjectId × CommitData} (h : p ∈ store) :
    p.1 < freshId store := by
  induction store with
  | nil => cases h
  | cons q rest ih =>
    rw [List.mem_cons] at h
    rw [freshId_cons]
    rcases h with h | h
    · subst h
      exact lt_of_lt_of_le (Nat.lt_succ_self _) (le_max_left _ _)
    · exact lt_of_lt_of_le (ih h) (le_max_right _ _)

/-- Content-addressed object write (`repo.write_object`): an object whose
data is already stored keeps its id; new data receives a fresh id. -/
def writeCommit (store : Store) (c : CommitData) : ObjectId × Store :=
  match store.find? (fun p => p.2 = c) with
  | some p => (p.1, store)
  | none => (freshId store, (freshId store, c) :: store)

/-- The deterministic default identity configured by `init_repository`. -/
def defaultAuthor : String := "No Visitors User <no-visitors@localhost>"

/-- Character scan deciding whether any `/`-separated component of the
path begins with `.` (`atStart` records whether the scan sits at the
beginning of a component). -/
def hiddenChars : Bool → List Char → Bool
  | _, [] => false
  | atStart, c :: rest =>
    if atStart && (c = '.') then true
    else hiddenChars (c = '/') rest

/-- True when some component of the repo-relative path starts with `.`
(the `filter_entry` in `add_all_files_to_index` prunes every walk entry
whose file name starts with a dot, so a dotted directory hides its whole
subtree). -/
def hiddenPath (p : String) : Bool :=
  hiddenChars true p.data

/-- `add_all_files_to_index`: rebuild the index from scratch from the
files present in the working tree, skipping hidden files, then sort. -/
def add_all_files_to_index (worktree : List (String × String)) : List IndexEntry :=
  sortIndex ((worktree.filter (fun f => !hiddenPath f.1)).map (fun f => ⟨f.1, f.2⟩))

/-- `create_tree_from_index_entries`: the (flattened) tree holding exactly
the index's path-to-blob associations. -/
def create_tree_from_index_entries (index : List IndexEntry) : Tree :=
  index.map (fun e => (e.path, e.content))

/-- View a tree as index entries (used when git populates the index from
a commit's tree, e.g. on checkout / rebase abort). -/
def treeIndex (t : Tree) : List IndexEntry :=
  t.map (fun f => ⟨f.1, f.2⟩)

/-- Resolve HEAD to a commit id (`repo.head_id()`): follow the symbolic
ref to its branch tip; an unborn branch yields none. -/
def RepoState.headId (s : RepoState) : Option ObjectId :=
  match s.head with
  | .symbolic b => s.branches.lookup b
  | .detached i => some i

/-- `ensure_draft_branch`: create `draft` from `main`, else from HEAD. -/
def ensure_draft_branch (s : RepoState) : Except String RepoState :=
  match s.branches.lookup "draft" with
  | some _ => .ok s
  | none =>
    match s.branches.lookup "main" with
    | some mid => .ok { s with branches := setKey s.branches "draft" mid }
    | none =>
      match s.headId with
      | some hid => .ok { s with branches := setKey s.branches "draft" hid }
      | none => .error "cannot create draft branch: no main branch and no HEAD"

/-- `switch_to_branch`: create the branch from HEAD when absent, then
point HEAD at it symbolically.  The working tree and index are not
touched (the source only rewrites the `HEAD` file). -/
def switch_to_branch (s : RepoState) (b : String) : Except String RepoState :=
  match s.branches.lookup b with
  | some _ => .ok { s with head := .symbolic b }
  | none =>
    match s.headId with
    | some hid =>
      .ok { s with branches := setKey s.branches b hid, head := .symbolic b }
    | none => .error "cannot resolve HEAD to create the new branch"

/-- `get_current_branch`: the branch HEAD points at; detached HEAD errors. -/
def get_current_branch (s : RepoState) : Except String String :=
  match s.head with
  | .symbolic b => .ok b
  | .detached _ => .error "HEAD is detached"

/-- `update_head_ref`: write the branch ref file and repoint HEAD. -/
def update_head_ref (s : RepoState) (cid : ObjectId) (branch : String) : RepoState :=
  { s with branches := setKey s.branches branch cid, head := .symbolic branch }

/-- `switch_to_branch` with the error discarded (`let _ = switch_to_branch(..)`
in the source). -/
def switchD (s : RepoState) (b : String) : RepoState :=
  match switch_to_branch s b with
  | .ok s' => s'
  | .error _ => s

/-- The commit object data assembled by `commit_changes`: the tree of
the reconciled index, the current HEAD as sole parent (no parent on an
unborn branch), the configured identity, message and clock. -/
def commitData (s2 : RepoState) (message : String) (now : Nat) : CommitData :=
  { tree := create_tree_from_index_entries (add_all_files_to_index s2.worktree),
    parents := match s2.headId with | some h => [h] | none => [],
    author := defaultAuthor, message := message, time := now }

/-- The body of `commit_changes` once the repository sits on `draft`:
rebuild the index from the working tree, build the tree, write a commit
object whose parent is the current HEAD, advance the branch ref, and
return the new commit id. -/
def commitCore (s2 : RepoState) (message : String) (now : Nat) :
    Except String ObjectId × RepoState :=
  let wc := writeCommit s2.store (commitData s2 message now)
  let branch :=
    match get_current_branch s2 with
    | .ok b => b
    | .error _ => "draft"
  let s3 := update_head_ref
    { s2 with index := add_all_files_to_index s2.worktree, store := wc.2 } wc.1 branch
  (.ok wc.1, switchD s3 "draft")

/-- `commit_changes`: ensure `draft` exists, switch to it, then commit
the working tree (`commitCore`).  The clock is passed explicitly
(`Time::now_local_or_utc`). -/
def commit_changes (s : RepoState) (message : String) (now : Nat) :
    Except String ObjectId × RepoState :=
  match ensure_draft_branch s with
  | .error e => (.error e, s)
  | .ok s1 =>
    match switch_to_branch s1 "draft" with
    | .error e => (.error e, s1)
    | .ok s2 => commitCore s2 message now

/-- `GitStatus` as returned by `get_repository_status`. -/
structure GitStatus where
  has_changes : Bool
  is_clean : Bool
deriving DecidableEq

/-- `get_repository_status`: `has_changes` is (simplified in the source
to) "the staging index has at least one entry". -/
def get_repository_status (s : RepoState) : GitStatus :=
  let hc := !s.index.isEmpty
  { has_changes := hc, is_clean := !hc }

/-- `add_remote`: set (or insert) the remote's URL in `.git/config`. -/
def add_remote (s : RepoState) (name url : String) : RepoState :=
  { s with remotes := setKey s.remotes name url }

/-- `get_remote_url`: read the remote's URL from `.git/config`. -/
def get_remote_url (s : RepoState) (name : String) : Option String :=
  s.remotes.lookup name

/-- Prefix test on character lists. -/
def isPrefixChars : List Char → List Char → Bool
  | [], _ => true
  | _ :: _, [] => false
  | a :: as, b :: bs => (a = b) && isPrefixChars as bs

/-- `url.starts_with("https://")`. -/
def urlIsHttps (url : String) : Bool :=
  isPrefixChars "https://".data url.data

/-- Everything after the first `@`, or none when no `@` occurs (mirrors
`url_without_protocol.find('@')` followed by taking the suffix). -/
def afterFirstAt : List Char → Option (List Char)
  | [] => none
  | c :: rest => if c = '@' then some rest else afterFirstAt rest

/-- The PAT-authenticated form of an `https://` URL built by
`fetch_from_remote` / `push_to_remote`: insert `<pat>@` after the scheme,
replacing any existing userinfo. -/
def authenticatedUrl (pat url : String) : String :=
  let rest := if urlIsHttps url then url.data.drop 8 else url.data
  match afterFirstAt rest with
  | some tailPart => ⟨"https://".data ++ pat.data ++ '@' :: tailPart⟩
  | none => ⟨"https://".data ++ pat.data ++ '@' :: rest⟩

/-- Shared PAT handling of `fetch_from_remote` and `push_to_remote`:
when a PAT is supplied, the remote must be configured, and an `https://`
URL is rewritten — persistently, via `add_remote` — to its authenticated
form.  Returns the (possibly modified) state, or the error raised when
the remote is not configured. -/
def applyPat (s : RepoState) (remoteName : String) (pat : Option String) :
    Except String RepoState :=
  match pat with
  | none => .ok s
  | some p =>
    match get_remote_url s remoteName with
    | none => .error ("remote " ++ remoteName ++ " is not configured")
    | some url =>
      if urlIsHttps url then
        .ok (add_remote s remoteName (authenticatedUrl p url))
      else
        .ok s

/-- What the network returned on fetch: the objects received and the
remote's branch tips (branch name, commit id). -/
structure RemoteData where
  objects : Store
  tips : List (String × ObjectId)

/-- Merge fetched objects into the local store (content addressing: an
id already present is the same object). -/
def mergeStore (localStore incoming : Store) : Store :=
  localStore ++ incoming.filter (fun p => !(localStore.any (fun q => q.1 == p.1)))

/-- Update the remote-tracking refs from the fetched branch tips. -/
def applyTips (rb : List (String × ObjectId)) (tips : List (String × ObjectId)) :
    List (String × ObjectId) :=
  tips.foldl (fun acc p => setKey acc p.1 p.2) rb

/-- `fetch_from_remote`: PAT URL rewrite (persisted in the config), then
receive the remote's objects and branch tips into the local tracking
namespace.  The working branch, index and working tree are untouched. -/
def fetch_from_remote (s : RepoState) (remoteName : String) (pat : Option String)
    (net : RemoteData) : Except String Unit × RepoState :=
  match applyPat s remoteName pat with
  | .error e => (.error e, s)
  | .ok s1 =>
    match get_remote_url s1 remoteName with
    | none => (.error ("cannot find remote: " ++ remoteName), s1)
    | some _ =>
      (.ok (), { s1 with
        store := mergeStore s1.store net.objects,
        remoteBranches := applyTips s1.remoteBranches net.tips })

/-- `push_to_remote`: PAT URL rewrite (persisted in the config), then the
external `git push`.  A non-fast-forward rejection surfaces as a distinct
error message; no failure path touches any local ref, the index or the
working tree.  On success the remote-tracking ref is advanced to the
pushed tip. -/
def push_to_remote (s : RepoState) (remoteName branchName : String)
    (pat : Option String) (outcome : PushOutcome) : Except String Unit × RepoState :=
  match applyPat s remoteName pat with
  | .error e => (.error e, s)
  | .ok s1 =>
    match get_remote_url s1 remoteName with
    | none => (.error ("cannot find remote: " ++ remoteName), s1)
    | some _ =>
      match outcome with
      | .ok =>
        match s1.branches.lookup branchName with
        | some tip =>
          (.ok (), { s1 with remoteBranches := setKey s1.remoteBranches branchName tip })
        | none => (.ok (), s1)
      | .rejectedNonFastForward =>
        (.error "push rejected: the remote branch has commits the local branch lacks; sync first", s1)
      | .transportError m => (.error ("git push failed: " ++ m), s1)

/-- `storage::delete_file`: remove the file from disk; error when absent. -/
def delete_file (s : RepoState) (path : String) : Except String RepoState :=
  if s.worktree.any (fun f => f.1 == path) then
    .ok { s with worktree := s.worktree.filter (fun f => !(f.1 == path)) }
  else
    .error ("file does not exist: " ++ path)

/-- `delete_file_with_git_sync_command`: delete the file, commit on
`draft`, then — when a PAT is configured — push, *ignoring* any push
failure (local-first: the deletion and commit stand regardless). -/
def delete_file_with_git_sync (s : RepoState) (path remoteName branchName : String)
    (pat : Option String) (outcome : PushOutcome) (now : Nat) :
    Except String Unit × RepoState :=
  match delete_file s path with
  | .error e => (.error ("delete failed: " ++ e), s)
  | .ok s1 =>
    match commit_changes s1 ("delete: " ++ path) now with
    | (.error e, s2) => (.error ("git commit failed: " ++ e), s2)
    | (.ok _, s2) =>
      match pat with
      | none => (.ok (), s2)
      | some tok =>
        (.ok (), (push_to_remote s2 remoteName branchName (some tok) outcome).2)

/-! ## Models of the external `git` subprocess invocations

The sync orchestrator shells out to the `git` binary for rebase, squash
merge, commit, status and add.  These functions model the documented
behaviour of those commands on the repository state.  History traversal
follows first parents, exactly as every traversal in the source does
(`commit.parent_ids().next()`). -/

/-- First-parent history chain starting at `i` (fuelled; the fuel
`store.length + 1` always suffices on well-formed stores, mirroring the
source's own iteration cap). -/
def firstParentChain (store : Store) : Nat → ObjectId → List ObjectId
  | 0, _ => []
  | fuel + 1, i =>
    i :: (match store.lookup i with
          | some d =>
            match d.parents with
            | p :: _ => firstParentChain store fuel p
            | [] => []
          | none => [])

/-- The first-parent history of `i`. -/
def chainOf (store : Store) (i : ObjectId) : List ObjectId :=
  firstParentChain store (store.length + 1) i

/-- `a` is reachable from `b` along first parents. -/
def isAncestor (store : Store) (a b : ObjectId) : Bool :=
  (chainOf store b).contains a

/-- Merge base of `a` and `b`: the first commit of `a`'s history that
also occurs in `b`'s history. -/
def mergeBase (store : Store) (a b : ObjectId) : Option ObjectId :=
  (chainOf store a).find? (fun x => (chainOf store b).contains x)

/-- The tree of the commit `i`, when stored. -/
def treeOf (store : Store) (i : ObjectId) : Option Tree :=
  (store.lookup i).map (fun d => d.tree)

/-- All paths mentioned by any of the three sides of a merge. -/
def allPaths (base ours theirs : Tree) : List String :=
  ((base.map (fun f => f.1)) ++ (ours.map (fun f => f.1)) ++ (theirs.map (fun f => f.1))).dedup

/-- Paths where a three-way merge cannot pick a side: both sides changed
the path relative to the base, to different contents. -/
def conflictPaths (base ours theirs : Tree) : List String :=
  (allPaths base ours theirs).filter (fun p =>
    let b := base.lookup p
    let o := ours.lookup p
    let t := theirs.lookup p
    decide (o ≠ b ∧ t ≠ b ∧ o ≠ t))

/-- Result of a conflict-free three-way merge: for each path, the side
that changed it wins (ours when both agree or only ours changed). -/
def mergeTrees (base ours theirs : Tree) : Tree :=
  (allPaths base ours theirs).filterMap (fun p =>
    let b := base.lookup p
    let o := ours.lookup p
    let t := theirs.lookup p
    (if o = b then t else o).map (fun c => (p, c)))

/-- Executable equality of trees as path-to-content maps: permutation of
the flat association lists. -/
def treePerm (a b : Tree) : Bool := decide (List.Perm a b)

theorem treePerm_iff {a b : Tree} : treePerm a b = true ↔ List.Perm a b := by
  unfold treePerm
  exact decide_eq_true_iff

/-- The tree of the staging index. -/
def indexTree (s : RepoState) : Tree :=
  create_tree_from_index_entries s.index

/-- The tree of the commit HEAD resolves to (empty for an unborn branch). -/
def headTreeD (s : RepoState) : Tree :=
  match s.headId with
  | some i => (treeOf s.store i).getD []
  | none => []

/-- Staged-but-uncommitted changes: index differs (as a path-to-content
map) from HEAD's tree. -/
def stagedDirty (s : RepoState) : Bool :=
  !(treePerm (indexTree s) (headTreeD s))

/-- Working-tree-vs-index differences. -/
def worktreeDirty (s : RepoState) : Bool :=
  !(treePerm s.worktree (indexTree s))

/-- Models `git status --porcelain` having empty output: working tree,
index and HEAD all agree. -/
def porcelainEmpty (s : RepoState) : Bool :=
  treePerm s.worktree (headTreeD s) && treePerm (indexTree s) (headTreeD s)

/-- Models `git add -A`: stage every file of the working tree. -/
def gitAddAll (s : RepoState) : RepoState :=
  { s with index := sortIndex (treeIndex s.worktree) }

/-- Outcome of the external `git rebase <upstream>`. -/
inductive RebaseOutcome where
  | clean
  | conflict
  | otherError (msg : String)
deriving DecidableEq

/-- Models the external `git rebase <upstream>` subprocess run on the
current branch: refuse when the index or working tree is dirty (stderr
then has no conflict keyword); fast-forward when strictly behind;
ignore when already up to date; otherwise replay the local work onto the
upstream tip — conflicting replays leave a rebase session open (marker
plus saved pre-rebase branch position) and report `CONFLICT`, clean
replays commit the merged result (modelled as the net effect: one
replayed commit whose parent is the upstream tip). -/
def gitRebase (s : RepoState) (upstream : ObjectId) (now : Nat) :
    RebaseOutcome × RepoState :=
  match s.head with
  | .detached _ => (.otherError "cannot rebase: HEAD is detached", s)
  | .symbolic b =>
    match s.branches.lookup b with
    | none => (.otherError "cannot rebase: unborn branch", s)
    | some tip =>
      if stagedDirty s || worktreeDirty s then
        (.otherError "cannot rebase: your index contains uncommitted changes", s)
      else if isAncestor s.store upstream tip then
        (.clean, s)
      else if isAncestor s.store tip upstream then
        match treeOf s.store upstream with
        | none => (.otherError "missing upstream object", s)
        | some t =>
          (.clean, { s with branches := setKey s.branches b upstream,
                            index := sortIndex (treeIndex t), worktree := t })
      else
        match mergeBase s.store tip upstream with
        | none => (.otherError "no merge base", s)
        | some base =>
          match treeOf s.store base, treeOf s.store tip, treeOf s.store upstream with
          | some baseT, some oursT, some theirsT =>
            if conflictPaths baseT oursT theirsT ≠ [] then
              (.conflict, { s with rebaseOpen := true, rebaseSaved := some (b, tip) })
            else
              let merged := mergeTrees baseT oursT theirsT
              let wc := writeCommit s.store
                ⟨merged, [upstream], defaultAuthor, "replayed", now⟩
              (.clean, { s with store := wc.2,
                                branches := setKey s.branches b wc.1,
                                index := sortIndex (treeIndex merged),
                                worktree := merged })
          | _, _, _ => (.otherError "missing objects for merge", s)

/-- Models `git rebase --abort`: restore the pre-rebase branch position
with its tree in the index and working tree, and discard the session
marker (a no-op on the branch when no session is recorded). -/
def gitRebaseAbort (s : RepoState) : RepoState :=
  match s.rebaseSaved with
  | some (b, tip) =>
    let t := (treeOf s.store tip).getD []
    { s with branches := setKey s.branches b tip, head := .symbolic b,
             index := sortIndex (treeIndex t), worktree := t,
             rebaseOpen := false, rebaseSaved := none }
  | none => { s with rebaseOpen := false }

/-- Models `git merge --squash <src>` on the current branch: stage the
three-way merge of the two tips into the index and working tree without
committing; a conflicted merge fails (and the source then aborts the
merge, leaving the durable state unchanged). -/
def gitMergeSquash (s : RepoState) (srcBranch : String) : Except String RepoState :=
  match s.head with
  | .detached _ => .error "not on a branch"
  | .symbolic b =>
    match s.branches.lookup b, s.branches.lookup srcBranch with
    | some tip, some src =>
      match mergeBase s.store tip src with
      | none => .error "no merge base"
      | some base =>
        match treeOf s.store base, treeOf s.store tip, treeOf s.store src with
        | some baseT, some oursT, some srcT =>
          if conflictPaths baseT oursT srcT ≠ [] then
            .error "squash merge conflict"
          else
            let merged := mergeTrees baseT oursT srcT
            .ok { s with index := sortIndex (treeIndex merged), worktree := merged }
        | _, _, _ => .error "missing objects for merge"
    | _, _ => .error "missing branch"

/-- Models the `git commit -m <msg>` subprocess: commit the staged index
on the current branch; fails with "nothing to commit" when the index
matches HEAD's tree. -/
def gitCommitCli (s : RepoState) (msg : String) (now : Nat) :
    Except String ObjectId × RepoState :=
  match s.head with
  | .detached _ => (.error "not on a branch", s)
  | .symbolic b =>
    if treePerm (indexTree s) (headTreeD s) then
      (.error "nothing to commit, working tree clean", s)
    else
      let parents : List ObjectId :=
        match s.branches.lookup b with
        | some tip => [tip]
        | none => []
      let wc := writeCommit s.store ⟨indexTree s, parents, defaultAuthor, msg, now⟩
      (.ok wc.1, { s with store := wc.2, branches := setKey s.branches b wc.1 })

/-- Models `git reset --hard HEAD`: index and working tree back to
HEAD's tree. -/
def gitResetHardHead (s : RepoState) : RepoState :=
  let t := headTreeD s
  { s with index := sortIndex (treeIndex t), worktree := t }

/-! ## The sync orchestrator (`sync_with_remote` and its helpers) -/

/-- `get_draft_commits_count`: commits on `draft`'s first-parent history
before `main` is reached (0 when either branch is missing or they
coincide; the traversal is capped, as in the source). -/
def get_draft_commits_count (s : RepoState) : Nat :=
  match s.branches.lookup "draft", s.branches.lookup "main" with
  | some d, some m =>
    if d = m then 0
    else ((chainOf s.store d).takeWhile (fun i => !(i == m))).length
  | _, _ => 0

/-- `handle_sync_conflict`: record the current HEAD commit on a new
`conflict_<timestamp>` branch, verify the branch file and its commit
object, and only then reset the synced branch ref to the remote-tracking
tip and repoint HEAD at it.  The index and working tree are *not*
updated (the source defers that to later operations). -/
def handle_sync_conflict (s : RepoState) (remoteName branchName : String)
    (now : Nat) : Except String String × RepoState :=
  match s.headId with
  | none => (.error "cannot read current HEAD", s)
  | some currentHead =>
    let cbName := "conflict_" ++ toString now
    let s1 := { s with branches := setKey s.branches cbName currentHead }
    match s1.store.lookup currentHead with
    | none => (.error "conflict branch creation failed: commit id invalid", s1)
    | some _ =>
      match s1.remoteBranches.lookup branchName with
      | none =>
        (.error ("cannot find remote branch " ++ remoteName ++ "/" ++ branchName), s1)
      | some remoteId =>
        (.ok cbName,
         { s1 with branches := setKey s1.branches branchName remoteId,
                   head := .symbolic branchName })

/-- `SyncResult` as returned by `sync_with_remote`. -/
structure SyncResult where
  success : Bool
  has_conflict : Bool
  conflict_branch : Option String
deriving DecidableEq

/-- Control flow of a sync phase: an early return carrying the final
result, or the state to continue with. -/
inductive PhaseOut where
  | done (r : Except String SyncResult) (s : RepoState)
  | next (s : RepoState)

/-- The conflict path shared by both conflict sites of `sync_with_remote`:
`handle_sync_conflict`, then a `has_conflict = true` result. -/
def conflictReturn (s : RepoState) (remoteName branchName : String) (now : Nat) :
    Except String SyncResult × RepoState :=
  match handle_sync_conflict s remoteName branchName now with
  | (.ok cb, s') => (.ok ⟨true, true, some cb⟩, s')
  | (.error e, s') => (.error e, s')

/-- Phase 2 of `sync_with_remote` when `draft` has commits beyond `main`:
rebase `draft` onto the remote tip (a conflict aborts the rebase,
switches back to `branchName` and takes the conflict path; a non-conflict
failure is tolerated), then squash-merge `draft` into `branchName` and
commit the squash. -/
def syncSquashPhase (s : RepoState) (remoteName branchName : String)
    (draftCount : Nat) (now : Nat) : PhaseOut :=
  match switch_to_branch s "draft" with
  | .error e => .done (.error e) s
  | .ok sA =>
    let afterDraftRebase : RepoState × Bool :=
      match sA.remoteBranches.lookup branchName with
      | none => (sA, false)
      | some upstream =>
        match gitRebase sA upstream now with
        | (.conflict, sB) => (gitRebaseAbort sB, true)
        | (.otherError _, sB) => (gitRebaseAbort sB, false)
        | (.clean, sB) => (sB, false)
    match afterDraftRebase with
    | (sC, true) =>
      let sD :=
        match switch_to_branch sC branchName with
        | .ok s' => s'
        | .error _ => sC
      match conflictReturn sD remoteName branchName now with
      | (r, sE) => .done r sE
    | (sC, false) =>
      match switch_to_branch sC branchName with
      | .error e => .done (.error e) sC
      | .ok s1 =>
        match gitMergeSquash s1 "draft" with
        | .error e => .done (.error ("squash merge failed: " ++ e)) s1
        | .ok s2 =>
          match gitCommitCli s2 ("sync: " ++ toString draftCount ++ " commits compressed") now with
          | (.error e, s3) =>
            .done (.error ("creating squash commit failed: " ++ e)) (gitResetHardHead s3)
          | (.ok _, s3) => .next s3

/-- Phase 4 of `sync_with_remote`: switch to `draft` (errors ignored on
the early-return paths) and point the `draft` ref at `branchName`'s tip. -/
def resetDraftLenient (s : RepoState) (branchName : String) : RepoState :=
  let s1 :=
    match switch_to_branch s "draft" with
    | .ok s' => s'
    | .error _ => s
  match s1.branches.lookup branchName with
  | some mid => { s1 with branches := setKey s1.branches "draft" mid }
  | none => s1

/-- The push-then-reset-draft tail shared by the success paths of
phase 3 (on the main path the switch to `draft` propagates its error). -/
def syncPushAndReset (s : RepoState) (remoteName branchName : String)
    (pat : Option String) (outcome : PushOutcome) :
    Except String SyncResult × RepoState :=
  match push_to_remote s remoteName branchName pat outcome with
  | (.error e, s') => (.error ("push to remote failed: " ++ e), s')
  | (.ok _, s') =>
    match switch_to_branch s' "draft" with
    | .error e => (.error ("cannot switch to draft branch: " ++ e), s')
    | .ok s2 =>
      match s2.branches.lookup branchName with
      | some mid =>
        (.ok ⟨true, false, none⟩, { s2 with branches := setKey s2.branches "draft" mid })
      | none => (.ok ⟨true, false, none⟩, s2)

/-- Phase 3 of `sync_with_remote`: when a local HEAD and the
remote-tracking branch both exist and differ, stage any pending
working-tree changes (`git add -A`) and rebase onto the remote tip —
a conflict aborts the rebase and takes the conflict path, any other
rebase failure is fatal; then push and reset `draft`.  When HEAD or the
remote branch is missing, push directly and reset `draft` leniently. -/
def syncIntegrate (s : RepoState) (remoteName branchName : String)
    (pat : Option String) (outcome : PushOutcome) (now : Nat) :
    Except String SyncResult × RepoState :=
  match s.headId with
  | none =>
    match push_to_remote s remoteName branchName pat outcome with
    | (.error e, s') => (.error ("push to remote failed: " ++ e), s')
    | (.ok _, s') => (.ok ⟨true, false, none⟩, resetDraftLenient s' branchName)
  | some localHead =>
    match s.remoteBranches.lookup branchName with
    | none =>
      match push_to_remote s remoteName branchName pat outcome with
      | (.error e, s') => (.error ("push to remote failed: " ++ e), s')
      | (.ok _, s') => (.ok ⟨true, false, none⟩, resetDraftLenient s' branchName)
    | some remoteHead =>
      if localHead = remoteHead then
        syncPushAndReset s remoteName branchName pat outcome
      else
        let sA := if porcelainEmpty s then s else gitAddAll s
        match gitRebase sA remoteHead now with
        | (.conflict, sB) =>
          conflictReturn (gitRebaseAbort sB) remoteName branchName now
        | (.otherError e, sB) => (.error ("git rebase failed: " ++ e), sB)
        | (.clean, sB) => syncPushAndReset sB remoteName branchName pat outcome

/-- `sync_with_remote`: fetch, squash `draft` into the synced branch when
it is ahead, then classify/rebase/push and reset `draft` to the synced
branch.  The clock and the network (fetched data, push outcome) are
explicit inputs. -/
def sync_with_remote (s0 : RepoState) (remoteName branchName : String)
    (pat : Option String) (net : RemoteData) (outcome : PushOutcome) (now : Nat) :
    Except String SyncResult × RepoState :=
  match fetch_from_remote s0 remoteName pat net with
  | (.error e, s) => (.error ("cannot fetch from remote: " ++ e), s)
  | (.ok _, s1) =>
    match ensure_draft_branch s1 with
    | .error e => (.error e, s1)
    | .ok s2 =>
      match switch_to_branch s2 branchName with
      | .error e => (.error ("cannot switch to main branch: " ++ e), s2)
      | .ok s3 =>
        let dc := get_draft_commits_count s3
        match (if dc > 0 then syncSquashPhase s3 remoteName branchName dc now
               else .next s3) with
        | .done r st => (r, st)
        | .next s4 => syncIntegrate s4 remoteName branchName pat outcome now

/-- Modelled from the spec: `abort_sync` is imported by
`src/src-tauri/src/commands.rs` from `crate::git` but its body is not
among the sources under src/.  Spec §4.5: "`abort(repo)`: discards the
open rebase session entirely and restores the pre-rebase branch
position"; this is `git rebase --abort` on the open session.  For the
no-open-session case the spec leaves the behaviour as implementer's
choice (§9); this model reports an error there (the claims below do not
depend on that case). -/
def abort_sync (s : RepoState) : Except String RepoState :=
  if s.rebaseOpen then .ok (gitRebaseAbort s)
  else .error "no rebase in progress"

/-! ## Helper lemmas -/

theorem mem_add_all {e : IndexEntry} {wt : List (String × String)}
    (h : e ∈ add_all_files_to_index wt) :
    (e.path, e.content) ∈ wt ∧ hiddenPath e.path = false := by
  unfold add_all_files_to_index at h
  rw [mem_sortIndex] at h
  rcases List.mem_map.mp h with ⟨f, hf, he⟩
  rcases List.mem_filter.mp hf with ⟨hfw, hvis⟩
  cases e
  cases he
  refine ⟨hfw, ?_⟩
  simpa using hvis

theorem mem_add_all_intro {f : String × String} {wt : List (String × String)}
    (hf : f ∈ wt) (hvis : hiddenPath f.1 = false) :
    ({ path := f.1, content := f.2 } : IndexEntry) ∈ add_all_files_to_index wt := by
  unfold add_all_files_to_index
  rw [mem_sortIndex]
  exact List.mem_map.mpr ⟨f, List.mem_filter.mpr ⟨hf, by simp [hvis]⟩, rfl⟩

theorem ensure_ok_fields {s s1 : RepoState} (h : ensure_draft_branch s = .ok s1) :
    s1.worktree = s.worktree ∧ s1.index = s.index ∧ s1.head = s.head ∧
      s1.store = s.store ∧ s1.remotes = s.remotes := by
  unfold ensure_draft_branch at h
  split at h
  · cases h; exact ⟨rfl, rfl, rfl, rfl, rfl⟩
  · split at h
    · cases h; exact ⟨rfl, rfl, rfl, rfl, rfl⟩
    · split at h
      · cases h; exact ⟨rfl, rfl, rfl, rfl, rfl⟩
      · cases h

theorem switch_ok_fields {s s2 : RepoState} {b : String}
    (h : switch_to_branch s b = .ok s2) :
    s2.worktree = s.worktree ∧ s2.index = s.index ∧ s2.head = .symbolic b ∧
      s2.store = s.store ∧ s2.remotes = s.remotes := by
  unfold switch_to_branch at h
  split at h
  · cases h; exact ⟨rfl, rfl, rfl, rfl, rfl⟩
  · split at h
    · cases h; exact ⟨rfl, rfl, rfl, rfl, rfl⟩
    · cases h

theorem switch_of_exists {s : RepoState} {b : String} {q : ObjectId}
    (hb : s.branches.lookup b = some q) :
    switch_to_branch s b = .ok { s with head := .symbolic b } := by
  unfold switch_to_branch
  rw [hb]

theorem ensure_of_draft {s : RepoState} {p : ObjectId}
    (hd : s.branches.lookup "draft" = some p) :
    ensure_draft_branch s = .ok s := by
  unfold ensure_draft_branch
  rw [hd]

theorem switchD_fields (s : RepoState) (b : String) :
    (switchD s b).worktree = s.worktree ∧ (switchD s b).index = s.index ∧
      (switchD s b).store = s.store ∧ (switchD s b).remotes = s.remotes := by
  unfold switchD
  rcases h : switch_to_branch s b with e | s'
  · exact ⟨rfl, rfl, rfl, rfl⟩
  · obtain ⟨h1, h2, _, h4, h5⟩ := switch_ok_fields h
    exact ⟨h1, h2, h4, h5⟩

theorem commitCore_shape (s2 : RepoState) (msg : String) (now : Nat) :
    (commitCore s2 msg now).2.index = add_all_files_to_index s2.worktree ∧
    (commitCore s2 msg now).2.worktree = s2.worktree := by
  unfold commitCore
  refine ⟨?_, ?_⟩
  · exact ((switchD_fields _ _).2.1).trans rfl
  · exact ((switchD_fields _ _).1).trans rfl

/-- Structure of a successful `commit_changes`: the final index is the
reconciled one, and the working tree is untouched. -/
theorem commit_ok_shape (s : RepoState) (msg : String) (now : Nat)
    (h : (commit_changes s msg now).1.isOk = true) :
    (commit_changes s msg now).2.index = add_all_files_to_index s.worktree ∧
    (commit_changes s msg now).2.worktree = s.worktree := by
  rcases he : ensure_draft_branch s with e | s1
  · unfold commit_changes at h
    simp only [he] at h
    simp [Except.isOk, Except.toBool] at h
  · rcases hw : switch_to_branch s1 "draft" with e | s2
    · unfold commit_changes at h
      simp only [he, hw] at h
      simp [Except.isOk, Except.toBool] at h
    · obtain ⟨he1, _, _, _, _⟩ := ensure_ok_fields he
      obtain ⟨hw1, _, _, _, _⟩ := switch_ok_fields hw
      have hcc : commit_changes s msg now = commitCore s2 msg now := by
        unfold commit_changes
        simp only [he, hw]
      rw [hcc]
      have := commitCore_shape s2 msg now
      rw [hw1, he1] at this
      exact this

deriving instance DecidableEq for Except

/-! ## Concrete witness states -/

/-- A root commit holding one visible file. -/
def cW : CommitData :=
  { tree := [("a.md", "x")], parents := [], author := defaultAuthor,
    message := "init", time := 0 }

/-- A small repository sitting on `draft` with one visible file and one
hidden service file on disk. -/
def sW : RepoState :=
  { store := [(0, cW)], branches := [("main", 0), ("draft", 0)],
    remoteBranches := [], head := .symbolic "draft",
    index := [{ path := "a.md", content := "x" }],
    worktree := [("a.md", "x"), (".vnode.json", "cfg")],
    remotes := [], rebaseOpen := false, rebaseSaved := none }

/-! ## Claim C6 -/

/-- C6: after every successful `commit_changes`, the staging index
contains no entry for a path that is not present on disk — the index is
rebuilt from the files found in the working tree, so deleted paths never
survive in it (and hence not in the committed snapshot, whose tree is
built from this index). -/
theorem C6_no_stale_index_entries (s : RepoState) (msg : String) (now : Nat)
    (h : (commit_changes s msg now).1.isOk = true) :
    ∀ e ∈ (commit_changes s msg now).2.index, ∃ c, (e.path, c) ∈ s.worktree := by
  intro e he
  rw [(commit_ok_shape s msg now h).1] at he
  exact ⟨e.content, (mem_add_all he).1⟩

theorem C6_witness :
    (commit_changes sW "m" 1).1.isOk = true ∧
    ∀ e ∈ (commit_changes sW "m" 1).2.index, ∃ c, (e.path, c) ∈ sW.worktree :=
  ⟨by decide, C6_no_stale_index_entries sW "m" 1 (by decide)⟩

/-! ## Claim C8 -/

/-- C8: no path with a dotted component (a file or ancestor directory
whose name begins with `.`) ever appears in the staged index of a
successful commit, nor in the committed tree (which
`create_tree_from_index_entries` builds from exactly that index) — hidden
files are silently excluded from every snapshot. -/
theorem C8_hidden_paths_excluded (s : RepoState) (msg : String) (now : Nat)
    (h : (commit_changes s msg now).1.isOk = true) :
    (∀ e ∈ (commit_changes s msg now).2.index, hiddenPath e.path = false) ∧
    (∀ pr ∈ create_tree_from_index_entries (commit_changes s msg now).2.index,
      hiddenPath pr.1 = false) := by
  constructor
  · intro e he
    rw [(commit_ok_shape s msg now h).1] at he
    exact (mem_add_all he).2
  · intro pr hpr
    rcases List.mem_map.mp hpr with ⟨e, he, hpe⟩
    rw [(commit_ok_shape s msg now h).1] at he
    have hh := (mem_add_all he).2
    cases hpe
    simpa using hh

theorem C8_witness :
    (commit_changes sW "m" 1).1.isOk = true ∧
    ((∀ e ∈ (commit_changes sW "m" 1).2.index, hiddenPath e.path = false) ∧
     (∀ pr ∈ create_tree_from_index_entries (commit_changes sW "m" 1).2.index,
       hiddenPath pr.1 = false)) :=
  ⟨by decide, C8_hidden_paths_excluded sW "m" 1 (by decide)⟩

/-! ## Claim C10 -/

/-- C10: `get_repository_status` reports `is_clean` as the negation of
`has_changes`, and `has_changes` holds exactly when the staging index is
non-empty — consequently, after a successful commit of a working tree
containing at least one visible file, `has_changes` remains `true` even
though there are no pending edits. -/
theorem C10_status_is_index_nonempty (s : RepoState) :
    ((get_repository_status s).is_clean = !(get_repository_status s).has_changes) ∧
    ((get_repository_status s).has_changes = true ↔ s.index ≠ []) ∧
    (∀ msg now, (commit_changes s msg now).1.isOk = true →
      ∀ f ∈ s.worktree, hiddenPath f.1 = false →
        (get_repository_status (commit_changes s msg now).2).has_changes = true) := by
  refine ⟨rfl, ?_, ?_⟩
  · simp [get_repository_status, List.isEmpty_iff]
  · intro msg now h f hf hvis
    have hidx := (commit_ok_shape s msg now h).1
    have hmem : (⟨f.1, f.2⟩ : IndexEntry) ∈ (commit_changes s msg now).2.index := by
      rw [hidx]
      exact mem_add_all_intro hf hvis
    have hne : (commit_changes s msg now).2.index ≠ [] := List.ne_nil_of_mem hmem
    simp [get_repository_status, List.isEmpty_iff, hne]

theorem C10_witness :
    (get_repository_status (commit_changes sW "m" 1).2).has_changes = true :=
  (C10_status_is_index_nonempty sW).2.2 "m" 1 (by decide) ("a.md", "x")
    (by decide) (by decide)

/-! ## Claim C3 -/

/-- C3 counterexample: in `sW` the working tree's tree is identical to
the parent commit's tree (commit 0), yet `commit_changes` does not
return the parent's id 0: it writes a brand-new commit 1 (the store
grows), and calling it a second time with no intervening file change
yields yet another id 2 — the two calls do not return the same id. -/
theorem C3_counterexample :
    (commit_changes sW "m" 1).1 = .ok 1 ∧
    (1 : ObjectId) ≠ 0 ∧
    (commit_changes sW "m" 1).2.store.length = 2 ∧
    (commit_changes ((commit_changes sW "m" 1).2) "m" 1).1 = .ok 2 ∧
    (2 : ObjectId) ≠ 1 := by decide

theorem switchD_branches_of_exists {s : RepoState} {b : String} {q : ObjectId}
    (hb : s.branches.lookup b = some q) : (switchD s b).branches = s.branches := by
  unfold switchD
  rw [switch_of_exists hb]

/-- C3 amended: `commit_changes` performs no no-op detection at all.
Whenever `draft` exists and points at a stored commit (and the store is
well-formed: no commit lists itself among its parents), a commit returns
an id *different* from the parent's — a new head is installed on `draft`
even when the tree is identical to the parent's tree. -/
theorem C3_amended_never_parent_id (s : RepoState) (msg : String) (now : Nat)
    (p : ObjectId) (hd : s.branches.lookup "draft" = some p)
    (hwf : ∀ q ∈ s.store, q.1 ∉ q.2.parents)
    (hp : ∃ d, (p, d) ∈ s.store) :
    ∃ cid, (commit_changes s msg now).1 = .ok cid ∧ cid ≠ p ∧
      (commit_changes s msg now).2.branches.lookup "draft" = some cid := by
  have hcc : commit_changes s msg now =
      commitCore { s with head := Head.symbolic "draft" } msg now := by
    unfold commit_changes
    simp only [ensure_of_draft hd, switch_of_exists hd]
  have hhead : RepoState.headId { s with head := Head.symbolic "draft" } = some p := by
    simp only [RepoState.headId]
    exact hd
  have hdata : commitData { s with head := Head.symbolic "draft" } msg now =
      { tree := create_tree_from_index_entries
          (add_all_files_to_index s.worktree),
        parents := [p], author := defaultAuthor, message := msg, time := now } := by
    unfold commitData
    simp only [hhead]
  rw [hcc]
  unfold commitCore
  simp only [hdata, get_current_branch, update_head_ref]
  set data : CommitData :=
    { tree := create_tree_from_index_entries
        (add_all_files_to_index s.worktree),
      parents := [p], author := defaultAuthor, message := msg, time := now } with hdd
  rcases hfind : s.store.find? (fun q => q.2 = data) with _ | q
  · -- new data: fresh id, strictly above every stored id, in particular p
    have hlt : p < freshId s.store := by
      obtain ⟨d, hdm⟩ := hp
      exact lt_freshId (p := (p, d)) hdm
    refine ⟨freshId s.store, ?_, ?_, ?_⟩
    · simp only [writeCommit, hfind]
    · exact ne_of_gt hlt
    · simp only [writeCommit, hfind]
      rw [switchD_branches_of_exists (lookup_setKey_self _ _ _)]
      exact lookup_setKey_self _ _ _
  · -- the data already exists under id q.1; q.1 = p would make p its own parent
    have hqmem : q ∈ s.store := List.mem_of_find?_eq_some hfind
    have hqd : q.2 = data := by
      have := List.find?_some hfind
      exact of_decide_eq_true this
    refine ⟨q.1, ?_, ?_, ?_⟩
    · simp only [writeCommit, hfind]
    · intro hqp
      have : q.1 ∉ q.2.parents := hwf q hqmem
      rw [hqd, hdd, hqp] at this
      simp at this
    · simp only [writeCommit, hfind]
      rw [switchD_branches_of_exists (lookup_setKey_self _ _ _)]
      exact lookup_setKey_self _ _ _

theorem C3_amended_witness :
    ∃ cid, (commit_changes sW "m" 1).1 = .ok cid ∧ cid ≠ 0 ∧
      (commit_changes sW "m" 1).2.branches.lookup "draft" = some cid :=
  C3_amended_never_parent_id sW "m" 1 0 (by decide) (by decide) ⟨cW, by decide⟩

/-! ## Claim C2 -/

/-- An empty network response. -/
def netEmpty : RemoteData := { objects := [], tips := [] }

/-- A repository with one configured `https` remote and nothing else. -/
def sC2 : RepoState :=
  { store := [], branches := [], remoteBranches := [], head := .symbolic "main",
    index := [], worktree := [],
    remotes := [("origin", "https://github.com/u/r.git")],
    rebaseOpen := false, rebaseSaved := none }

/-- C2 counterexample: a fetch with a PAT token succeeds, yet afterwards
the persistently stored remote URL is the *authenticated* URL embedding
the token — it does not equal its pre-call value, so authentication
material survives in the repository configuration. -/
theorem C2_counterexample :
    get_remote_url sC2 "origin" = some "https://github.com/u/r.git" ∧
    (fetch_from_remote sC2 "origin" (some "TOKEN123") netEmpty).1 = .ok () ∧
    get_remote_url (fetch_from_remote sC2 "origin" (some "TOKEN123") netEmpty).2
      "origin" = some "https://TOKEN123@github.com/u/r.git" := by decide

/-- C2 amended: for every fetch *and* every push made with a PAT against
a configured `https://` remote, the call rewrites the stored remote URL
to the PAT-authenticated form via the persistent configuration, and
never restores it: after the call (for push: whatever the transport
outcome) the stored URL is `authenticatedUrl pat url`, not the pre-call
`url`. -/
theorem C2_amended_pat_persists (s : RepoState) (remoteName bn pat url : String)
    (net : RemoteData) (o : PushOutcome)
    (hu : get_remote_url s remoteName = some url)
    (hh : urlIsHttps url = true) :
    ((fetch_from_remote s remoteName (some pat) net).1 = .ok () ∧
     get_remote_url (fetch_from_remote s remoteName (some pat) net).2 remoteName =
       some (authenticatedUrl pat url)) ∧
    get_remote_url (push_to_remote s remoteName bn (some pat) o).2 remoteName =
      some (authenticatedUrl pat url) := by
  have happ : applyPat s remoteName (some pat) =
      .ok (add_remote s remoteName (authenticatedUrl pat url)) := by
    unfold applyPat
    rw [hu]
    simp [hh]
  have hg1 : get_remote_url (add_remote s remoteName (authenticatedUrl pat url))
      remoteName = some (authenticatedUrl pat url) := by
    unfold get_remote_url add_remote
    exact lookup_setKey_self _ _ _
  constructor
  · unfold fetch_from_remote
    simp only [happ, hg1]
    exact ⟨trivial, hg1⟩
  · rcases o with _ | _ | msg
    · rcases hb : (add_remote s remoteName (authenticatedUrl pat url)).branches.lookup bn
          with _ | tip
      · unfold push_to_remote
        simp only [happ, hg1, hb]
      · unfold push_to_remote
        simp only [happ, hg1, hb]
        exact hg1
    · unfold push_to_remote
      simp only [happ, hg1]
    · unfold push_to_remote
      simp only [happ, hg1]

theorem C2_amended_witness :
    ((fetch_from_remote sC2 "origin" (some "TOKEN123") netEmpty).1 = .ok () ∧
     get_remote_url (fetch_from_remote sC2 "origin" (some "TOKEN123") netEmpty).2
       "origin" = some (authenticatedUrl "TOKEN123" "https://github.com/u/r.git")) ∧
    get_remote_url (push_to_remote sC2 "origin" "main" (some "TOKEN123")
        (.transportError "network unreachable")).2 "origin"
      = some (authenticatedUrl "TOKEN123" "https://github.com/u/r.git") :=
  C2_amended_pat_persists sC2 "origin" "main" "TOKEN123"
    "https://github.com/u/r.git" netEmpty (.transportError "network unreachable")
    (by decide) (by decide)

/-! ## Claim C5 -/

theorem applyPat_ok_fields {s s1 : RepoState} {r : String} {p : Option String}
    (h : applyPat s r p = .ok s1) :
    s1.branches = s.branches ∧ s1.head = s.head ∧ s1.store = s.store ∧
    s1.index = s.index ∧ s1.worktree = s.worktree ∧
    s1.remoteBranches = s.remoteBranches := by
  unfold applyPat at h
  split at h
  · cases h; exact ⟨rfl, rfl, rfl, rfl, rfl, rfl⟩
  · split at h
    · cases h
    · split at h
      · cases h; exact ⟨rfl, rfl, rfl, rfl, rfl, rfl⟩
      · cases h; exact ⟨rfl, rfl, rfl, rfl, rfl, rfl⟩

/-- No code path of `push_to_remote` touches a local branch ref, HEAD,
the object store, the index or the working tree. -/
theorem push_to_remote_preserves (s : RepoState) (r b : String)
    (p : Option String) (o : PushOutcome) :
    (push_to_remote s r b p o).2.branches = s.branches ∧
    (push_to_remote s r b p o).2.head = s.head ∧
    (push_to_remote s r b p o).2.store = s.store ∧
    (push_to_remote s r b p o).2.index = s.index ∧
    (push_to_remote s r b p o).2.worktree = s.worktree := by
  unfold push_to_remote
  rcases ha : applyPat s r p with e | s1
  · simp [ha]
  · obtain ⟨h1, h2, h3, h4, h5, _⟩ := applyPat_ok_fields ha
    rcases hg : get_remote_url s1 r with _ | u
    · simp [ha, hg, h1, h2, h3, h4, h5]
    · rcases o with _ | _ | m
      · rcases hb : s1.branches.lookup b with _ | tip
        · rw [h1] at hb
          simp [ha, hg, hb, h1, h2, h3, h4, h5]
        · rw [h1] at hb
          simp [ha, hg, hb, h1, h2, h3, h4, h5]
      · simp [ha, hg, h1, h2, h3, h4, h5]
      · simp [ha, hg, h1, h2, h3, h4, h5]

theorem commitCore_draft_lookup {s2 : RepoState} {msg : String} {now : Nat}
    (hh : s2.head = .symbolic "draft") {cid : ObjectId} {st : RepoState}
    (h : commitCore s2 msg now = (.ok cid, st)) :
    st.branches.lookup "draft" = some cid := by
  unfold commitCore at h
  simp only [get_current_branch, update_head_ref, hh] at h
  have h1 := congrArg Prod.fst h
  have h2 := congrArg Prod.snd h
  simp only at h1 h2
  have hcid := Except.ok.inj h1
  rw [← h2, ← hcid]
  rw [switchD_branches_of_exists (lookup_setKey_self _ _ _)]
  exact lookup_setKey_self _ _ _

/-- A successful `commit_changes` leaves `draft` pointing at the new
commit id. -/
theorem commit_ok_draft_lookup {s : RepoState} {msg : String} {now : Nat}
    {cid : ObjectId} {st : RepoState}
    (h : commit_changes s msg now = (.ok cid, st)) :
    st.branches.lookup "draft" = some cid := by
  unfold commit_changes at h
  rcases he : ensure_draft_branch s with e | s1 <;> rw [he] at h
  · simp only at h
    exact absurd (congrArg Prod.fst h) (by simp)
  · simp only at h
    rcases hw : switch_to_branch s1 "draft" with e | s2 <;> rw [hw] at h
    · simp only at h
      exact absurd (congrArg Prod.fst h) (by simp)
    · simp only at h
      exact commitCore_draft_lookup (switch_ok_fields hw).2.2.1 h

/-- C5: when a local commit (here: the delete-and-commit flow) succeeds
and the subsequent push fails for any transport reason — including a
non-fast-forward rejection — the command still reports success, and the
local branch ref, HEAD and object store are exactly those produced by
the commit: the `draft` ref still points at the new commit.  A failed
publish never rolls back local work. -/
theorem C5_push_failure_keeps_local_commit (s s1 s2 : RepoState)
    (path remoteName branchName tok : String) (outcome : PushOutcome)
    (now : Nat) (cid : ObjectId)
    (hdel : delete_file s path = .ok s1)
    (hcommit : commit_changes s1 ("delete: " ++ path) now = (.ok cid, s2))
    (_hfail : outcome ≠ PushOutcome.ok) :
    (delete_file_with_git_sync s path remoteName branchName (some tok) outcome now).1
      = .ok () ∧
    (delete_file_with_git_sync s path remoteName branchName (some tok) outcome now).2.branches
      = s2.branches ∧
    (delete_file_with_git_sync s path remoteName branchName (some tok) outcome now).2.head
      = s2.head ∧
    (delete_file_with_git_sync s path remoteName branchName (some tok) outcome now).2.store
      = s2.store ∧
    s2.branches.lookup "draft" = some cid := by
  have hrun : delete_file_with_git_sync s path remoteName branchName (some tok) outcome now
      = (.ok (), (push_to_remote s2 remoteName branchName (some tok) outcome).2) := by
    unfold delete_file_with_git_sync
    simp only [hdel, hcommit]
  rw [hrun]
  obtain ⟨hb, hhd, hst, _, _⟩ := push_to_remote_preserves s2 remoteName branchName (some tok) outcome
  exact ⟨rfl, hb, hhd, hst, commit_ok_draft_lookup hcommit⟩

/-- A state for exercising the delete-then-push flow. -/
def sC5 : RepoState :=
  { store := [(0, cW)], branches := [("main", 0), ("draft", 0)],
    remoteBranches := [("main", 0)], head := .symbolic "draft",
    index := [{ path := "a.md", content := "x" }],
    worktree := [("a.md", "x"), ("b.md", "y")],
    remotes := [("origin", "https://github.com/u/r.git")],
    rebaseOpen := false, rebaseSaved := none }

theorem C5_witness :
    (delete_file_with_git_sync sC5 "b.md" "origin" "main" (some "T")
        (.transportError "network unreachable") 3).1 = .ok () ∧
    (delete_file_with_git_sync sC5 "b.md" "origin" "main" (some "T")
        (.transportError "network unreachable") 3).2.branches
      = (commit_changes ((delete_file sC5 "b.md").toOption.getD sC5) "delete: b.md" 3).2.branches ∧
    (delete_file_with_git_sync sC5 "b.md" "origin" "main" (some "T")
        (.transportError "network unreachable") 3).2.head
      = (commit_changes ((delete_file sC5 "b.md").toOption.getD sC5) "delete: b.md" 3).2.head ∧
    (delete_file_with_git_sync sC5 "b.md" "origin" "main" (some "T")
        (.transportError "network unreachable") 3).2.store
      = (commit_changes ((delete_file sC5 "b.md").toOption.getD sC5) "delete: b.md" 3).2.store ∧
    (commit_changes ((delete_file sC5 "b.md").toOption.getD sC5) "delete: b.md" 3).2.branches.lookup "draft"
      = some 1 := by
  have h := C5_push_failure_keeps_local_commit sC5
    ((delete_file sC5 "b.md").toOption.getD sC5)
    ((commit_changes ((delete_file sC5 "b.md").toOption.getD sC5) "delete: b.md" 3).2)
    "b.md" "origin" "main" "T" (.transportError "network unreachable") 3 1
    (by decide) (by decide) (by decide)
  exact h

/-! ## Claim C7 -/

/-- A repository frozen mid-conflict: an open rebase session whose saved
pre-rebase position is `main` at commit 0 (one tracked file). -/
def sC7 : RepoState :=
  { store := [(0, cW)], branches := [("main", 0)],
    remoteBranches := [("main", 0)], head := .symbolic "main",
    index := [{ path := "a.md", content := "x" }],
    worktree := [("a.md", "x")], remotes := [],
    rebaseOpen := true, rebaseSaved := some ("main", 0) }

/-- C7 counterexample: `abort_sync` does restore the branch ref to its
pre-rebase value (commit 0) and the working tree matches that commit,
but the subsequent `status` does *not* report a clean tree:
`get_repository_status` equates `is_clean` with "the index is empty",
and after the abort the index holds the restored commit's file, so
`is_clean = false`. -/
theorem C7_counterexample :
    (abort_sync sC7).map
      (fun s' => ((get_repository_status s').is_clean,
                  s'.branches.lookup "main", s'.worktree)) =
      .ok (false, some 0, [("a.md", "x")]) := by decide

theorem isEmpty_sortIndex_treeIndex (T : Tree) :
    (sortIndex (treeIndex T)).isEmpty = T.isEmpty := by
  cases T with
  | nil => rfl
  | cons x xs =>
    have hlen : (sortIndex (treeIndex (x :: xs))).length = xs.length + 1 := by
      rw [(perm_sortIndex (treeIndex (x :: xs))).length_eq]
      simp [treeIndex]
    have hne : sortIndex (treeIndex (x :: xs)) ≠ [] := by
      intro hnil
      rw [hnil] at hlen
      simp at hlen
    simp [List.isEmpty_iff, hne]

/-- C7 amended (`abort_sync` modelled from the spec, §4.5): aborting an
open conflicting sync restores the branch ref to its saved pre-rebase
value and checks the saved commit's tree out into the index and working
tree; however the subsequent `status` call reports `is_clean = true`
only when that restored tree is empty — the source's
`get_repository_status` equates "clean" with "empty index", so for any
repository with at least one tracked file it reports `is_clean = false`
even though the working tree matches the restored commit. -/
theorem C7_amended_abort_restores_ref (s : RepoState) (b : String) (t : ObjectId)
    (ho : s.rebaseOpen = true) (hsv : s.rebaseSaved = some (b, t)) :
    ∃ s', abort_sync s = .ok s' ∧
      s'.branches.lookup b = some t ∧
      s'.worktree = (treeOf s.store t).getD [] ∧
      (get_repository_status s').is_clean = ((treeOf s.store t).getD []).isEmpty := by
  have habort : gitRebaseAbort s =
      { s with branches := setKey s.branches b t, head := .symbolic b,
               index := sortIndex (treeIndex ((treeOf s.store t).getD [])),
               worktree := (treeOf s.store t).getD [],
               rebaseOpen := false, rebaseSaved := none } := by
    unfold gitRebaseAbort
    simp only [hsv]
  refine ⟨gitRebaseAbort s, ?_, ?_, ?_, ?_⟩
  · simp [abort_sync, ho]
  · rw [habort]
    exact lookup_setKey_self _ _ _
  · rw [habort]
  · rw [habort]
    simp only [get_repository_status, Bool.not_not]
    exact isEmpty_sortIndex_treeIndex _

theorem C7_amended_witness :
    ∃ s', abort_sync sC7 = .ok s' ∧
      s'.branches.lookup "main" = some 0 ∧
      s'.worktree = (treeOf sC7.store 0).getD [] ∧
      (get_repository_status s').is_clean = ((treeOf sC7.store 0).getD []).isEmpty :=
  C7_amended_abort_restores_ref sC7 "main" 0 (by decide) (by decide)

/-! ## Claims C4 and C1: the rebase paths of `sync_with_remote` -/

theorem fetch_none_eq (s : RepoState) (rn : String) (net : RemoteData) (url : String)
    (hu : get_remote_url s rn = some url) :
    fetch_from_remote s rn none net =
      (.ok (), { s with store := mergeStore s.store net.objects,
                        remoteBranches := applyTips s.remoteBranches net.tips }) := by
  unfold fetch_from_remote applyPat
  simp only [hu]

theorem conflict_name_ne_main (n : Nat) : ("conflict_" ++ toString n) ≠ "main" := by
  intro h
  have hl := congrArg String.length h
  rw [String.length_append] at hl
  have h9 : "conflict_".length = 9 := by decide
  have h4 : "main".length = 4 := by decide
  rw [h9, h4] at hl
  omega

/-- The tree read back from the sorted index of a working tree is a
permutation of the working tree itself. -/
theorem perm_tree_sorted (w : List (String × String)) :
    List.Perm (create_tree_from_index_entries (sortIndex (treeIndex w))) w := by
  have h1 : List.Perm (create_tree_from_index_entries (sortIndex (treeIndex w)))
      (create_tree_from_index_entries (treeIndex w)) :=
    (perm_sortIndex (treeIndex w)).map _
  have h2 : ∀ v : List (String × String), create_tree_from_index_entries (treeIndex v) = v := by
    intro v
    induction v with
    | nil => rfl
    | cons x xs ih =>
      show (x.1, x.2) :: create_tree_from_index_entries (treeIndex xs) = x :: xs
      rw [ih]
  rw [h2 w] at h1
  exact h1

/-- With `draft` and the synced branch both present and coinciding, the
entry phases of `sync_with_remote` (fetch, ensure `draft`, switch, empty
squash phase) land in `syncIntegrate` on the fetched state. -/
theorem sync_entry_eq (s : RepoState) (rn : String) (net : RemoteData)
    (url : String) (m : ObjectId) (o : PushOutcome) (now : Nat)
    (hu : get_remote_url s rn = some url)
    (hdraft : s.branches.lookup "draft" = some m)
    (hmain : s.branches.lookup "main" = some m) :
    sync_with_remote s rn "main" none net o now =
      syncIntegrate
        { s with store := mergeStore s.store net.objects,
                 remoteBranches := applyTips s.remoteBranches net.tips,
                 head := .symbolic "main" } rn "main" none o now := by
  have hf := fetch_none_eq s rn net url hu
  have he : ensure_draft_branch
      { s with store := mergeStore s.store net.objects,
               remoteBranches := applyTips s.remoteBranches net.tips } =
      .ok { s with store := mergeStore s.store net.objects,
                   remoteBranches := applyTips s.remoteBranches net.tips } :=
    ensure_of_draft hdraft
  have hw : switch_to_branch
      { s with store := mergeStore s.store net.objects,
               remoteBranches := applyTips s.remoteBranches net.tips } "main" =
      .ok { s with store := mergeStore s.store net.objects,
                   remoteBranches := applyTips s.remoteBranches net.tips,
                   head := .symbolic "main" } :=
    switch_of_exists hmain
  have hdc : get_draft_commits_count
      { s with store := mergeStore s.store net.objects,
               remoteBranches := applyTips s.remoteBranches net.tips,
               head := .symbolic "main" } = 0 := by
    unfold get_draft_commits_count
    simp [hdraft, hmain]
  unfold sync_with_remote
  simp [hf, he, hw, hdc]

/-- C4: in a state strictly behind the remote (`ahead = 0, behind > 0`)
whose working tree has pending uncommitted changes, `sync_with_remote`
refuses the fast-forward: the external rebase rejects the dirty index
(staged by the preceding `git add -A`), the sync surfaces an error, and
neither the local branch refs nor the working tree are modified — the
uncommitted changes are not discarded. -/
theorem C4_dirty_blocks_fast_forward (s : RepoState) (rn url : String)
    (net : RemoteData) (o : PushOutcome) (now : Nat) (m r : ObjectId) (mT : Tree)
    (hu : get_remote_url s rn = some url)
    (hdraft : s.branches.lookup "draft" = some m)
    (hmain : s.branches.lookup "main" = some m)
    (hr : (applyTips s.remoteBranches net.tips).lookup "main" = some r)
    (hne : m ≠ r)
    (hmt : treeOf (mergeStore s.store net.objects) m = some mT)
    (_hbehind : isAncestor (mergeStore s.store net.objects) m r = true)
    (hdirty : treePerm s.worktree mT = false) :
    (∃ e, (sync_with_remote s rn "main" none net o now).1 = Except.error e) ∧
    (sync_with_remote s rn "main" none net o now).2.branches = s.branches ∧
    (sync_with_remote s rn "main" none net o now).2.worktree = s.worktree := by
  rw [sync_entry_eq s rn net url m o now hu hdraft hmain]
  set s3 : RepoState :=
    { s with store := mergeStore s.store net.objects,
             remoteBranches := applyTips s.remoteBranches net.tips,
             head := .symbolic "main" } with hs3
  have hhead : s3.headId = some m := by
    rw [hs3]
    simp only [RepoState.headId]
    exact hmain
  have hrB : s3.remoteBranches.lookup "main" = some r := hr
  have hht : headTreeD s3 = mT := by
    simp only [headTreeD, hhead]
    rw [show treeOf s3.store m = some mT from hmt]
    rfl
  have hporc : porcelainEmpty s3 = false := by
    unfold porcelainEmpty
    rw [hht]
    rw [show s3.worktree = s.worktree from rfl]
    rw [hdirty]
    rfl
  have hstaged : stagedDirty (gitAddAll s3) = true := by
    unfold stagedDirty
    have hh2 : (gitAddAll s3).headId = some m := hhead
    have hmt2 : treeOf (gitAddAll s3).store m = some mT := hmt
    have hht2 : headTreeD (gitAddAll s3) = mT := by
      simp only [headTreeD, hh2, hmt2, Option.getD_some]
    rw [hht2]
    have hp : treePerm (indexTree (gitAddAll s3)) mT = false := by
      cases hb : treePerm (indexTree (gitAddAll s3)) mT
      · rfl
      · exfalso
        have hperm := treePerm_iff.mp hb
        have hperm2 : List.Perm s.worktree mT :=
          ((perm_tree_sorted s.worktree).symm.trans
            (show List.Perm (create_tree_from_index_entries
              (sortIndex (treeIndex s.worktree))) mT from hperm))
        have hT : treePerm s.worktree mT = true := treePerm_iff.mpr hperm2
        rw [hT] at hdirty
        simp at hdirty
    rw [hp]
    rfl
  have hgr : gitRebase (gitAddAll s3) r now =
      (.otherError "cannot rebase: your index contains uncommitted changes",
       gitAddAll s3) := by
    unfold gitRebase
    rw [show (gitAddAll s3).head = Head.symbolic "main" from rfl]
    simp only [show (gitAddAll s3).branches.lookup "main" = some m from hmain,
      hstaged, Bool.true_or, if_true]
  unfold syncIntegrate
  simp only [hhead, hrB]
  rw [if_neg hne]
  simp only [hporc, Bool.false_eq_true, if_false, hgr]
  exact ⟨⟨_, rfl⟩, rfl, rfl⟩

/-- A remote commit on top of the shared root, for the C4 scenario. -/
def r1C : CommitData :=
  { tree := [("a.md", "remote")], parents := [0], author := defaultAuthor,
    message := "r", time := 2 }

/-- Strictly behind the remote (`main = draft = 0`, remote tip 2 a child
of 0) with a dirty working tree. -/
def sC4 : RepoState :=
  { store := [(0, cW), (2, r1C)], branches := [("main", 0), ("draft", 0)],
    remoteBranches := [], head := .symbolic "draft",
    index := [{ path := "a.md", content := "x" }],
    worktree := [("a.md", "DIRTY")],
    remotes := [("origin", "https://h/x.git")],
    rebaseOpen := false, rebaseSaved := none }

def netC4 : RemoteData := { objects := [], tips := [("main", 2)] }

theorem C4_witness :
    (∃ e, (sync_with_remote sC4 "origin" "main" none netC4 .ok 9).1 = Except.error e) ∧
    (sync_with_remote sC4 "origin" "main" none netC4 .ok 9).2.branches = sC4.branches ∧
    (sync_with_remote sC4 "origin" "main" none netC4 .ok 9).2.worktree = sC4.worktree :=
  C4_dirty_blocks_fast_forward sC4 "origin" "https://h/x.git" netC4 .ok 9 0 2
    [("a.md", "x")] (by decide) (by decide) (by decide) (by decide) (by decide)
    (by decide) (by decide) (by decide)

/-! ## Claim C1 -/

/-- A local commit on top of the shared root, for the C1 scenario. -/
def m1C : CommitData :=
  { tree := [("a.md", "local")], parents := [0], author := defaultAuthor,
    message := "l", time := 1 }

/-- Diverged: `main = draft = 1` (local child of 0), remote tip 2
(remote child of 0), both touching `a.md`; clean working tree. -/
def sC1 : RepoState :=
  { store := [(0, cW), (1, m1C), (2, r1C)],
    branches := [("main", 1), ("draft", 1)],
    remoteBranches := [], head := .symbolic "draft",
    index := [{ path := "a.md", content := "local" }],
    worktree := [("a.md", "local")],
    remotes := [("origin", "https://h/x.git")],
    rebaseOpen := false, rebaseSaved := none }

def netC1 : RemoteData := { objects := [], tips := [("main", 2)] }

/-- C1 counterexample: on a diverged state whose rebase conflicts, sync
does return `has_conflict = true` — but the `SyncResult` carries a
`conflict_branch` name (there is no structured conflict list in the
type), and the final repository state has **no** open rebase session:
the session was aborted (`rebaseOpen = false`), contradicting the claim
that it remains open for later resolution. -/
theorem C1_counterexample :
    (sync_with_remote sC1 "origin" "main" none netC1 .ok 5).1 =
      .ok { success := true, has_conflict := true,
            conflict_branch := some "conflict_5" } ∧
    (sync_with_remote sC1 "origin" "main" none netC1 .ok 5).2.rebaseOpen = false := by
  decide

/-- C1 amended: when the diverged rebase hits a conflict,
`sync_with_remote` returns `has_conflict = true` carrying
`conflict_branch = conflict_<timestamp>` (not a conflict list), the
rebase session **is** aborted — no session is left open — and the
conflict branch preserves the old local tip while the synced branch is
reset to the remote tip. -/
theorem C1_amended_conflict_aborts_session (s : RepoState) (rn url : String)
    (net : RemoteData) (o : PushOutcome) (now : Nat) (m r base : ObjectId)
    (rT baseT : Tree) (md : CommitData)
    (hu : get_remote_url s rn = some url)
    (hdraft : s.branches.lookup "draft" = some m)
    (hmain : s.branches.lookup "main" = some m)
    (hr : (applyTips s.remoteBranches net.tips).lookup "main" = some r)
    (hne : m ≠ r)
    (hsm : (mergeStore s.store net.objects).lookup m = some md)
    (hrt : treeOf (mergeStore s.store net.objects) r = some rT)
    (hanc1 : isAncestor (mergeStore s.store net.objects) r m = false)
    (hanc2 : isAncestor (mergeStore s.store net.objects) m r = false)
    (hbase : mergeBase (mergeStore s.store net.objects) m r = some base)
    (hbt : treeOf (mergeStore s.store net.objects) base = some baseT)
    (hconf : conflictPaths baseT md.tree rT ≠ [])
    (hclean1 : treePerm s.worktree md.tree = true)
    (hclean2 : treePerm (create_tree_from_index_entries s.index) md.tree = true) :
    (sync_with_remote s rn "main" none net o now).1 =
      .ok { success := true, has_conflict := true,
            conflict_branch := some ("conflict_" ++ toString now) } ∧
    (sync_with_remote s rn "main" none net o now).2.rebaseOpen = false ∧
    (sync_with_remote s rn "main" none net o now).2.branches.lookup
      ("conflict_" ++ toString now) = some m ∧
    (sync_with_remote s rn "main" none net o now).2.branches.lookup "main" = some r := by
  rw [sync_entry_eq s rn net url m o now hu hdraft hmain]
  set s3 : RepoState :=
    { s with store := mergeStore s.store net.objects,
             remoteBranches := applyTips s.remoteBranches net.tips,
             head := .symbolic "main" } with hs3
  have hhead : s3.headId = some m := by
    rw [hs3]
    simp only [RepoState.headId]
    exact hmain
  have hrB : s3.remoteBranches.lookup "main" = some r := hr
  have hsm3 : s3.store.lookup m = some md := hsm
  have hmt : treeOf s3.store m = some md.tree := by
    unfold treeOf
    rw [hsm3]
    rfl
  have hht : headTreeD s3 = md.tree := by
    simp only [headTreeD, hhead, hmt, Option.getD_some]
  have hidx : indexTree s3 = create_tree_from_index_entries s.index := rfl
  have hporc : porcelainEmpty s3 = true := by
    unfold porcelainEmpty
    rw [hht, show s3.worktree = s.worktree from rfl, hidx, hclean1, hclean2]
    rfl
  have hdirty1 : stagedDirty s3 = false := by
    unfold stagedDirty
    rw [hht, hidx, hclean2]
    rfl
  have hdirty2 : worktreeDirty s3 = false := by
    unfold worktreeDirty
    have hp : treePerm s3.worktree (indexTree s3) = true := by
      apply treePerm_iff.mpr
      have p1 := treePerm_iff.mp hclean1
      have p2 := treePerm_iff.mp hclean2
      exact p1.trans p2.symm
    rw [hp]
    rfl
  have ha1 : isAncestor s3.store r m = false := hanc1
  have ha2 : isAncestor s3.store m r = false := hanc2
  have hb3 : mergeBase s3.store m r = some base := hbase
  have hbt3 : treeOf s3.store base = some baseT := hbt
  have hrt3 : treeOf s3.store r = some rT := hrt
  have hgr : gitRebase s3 r now =
      (.conflict, { s3 with rebaseOpen := true, rebaseSaved := some ("main", m) }) := by
    unfold gitRebase
    rw [show s3.head = Head.symbolic "main" from rfl]
    simp only [show s3.branches.lookup "main" = some m from hmain, hdirty1, hdirty2,
      Bool.or_self, Bool.false_eq_true, if_false, ha1, ha2, hb3, hbt3, hmt, hrt3]
    rw [if_pos hconf]
  unfold syncIntegrate
  simp only [hhead, hrB]
  rw [if_neg hne]
  simp only [hporc, if_true, hgr]
  unfold conflictReturn handle_sync_conflict gitRebaseAbort
  simp only [hmt, Option.getD_some, RepoState.headId, lookup_setKey_self, hsm, hr]
  refine ⟨trivial, trivial, ?_, trivial⟩
  rw [lookup_setKey_ne _ "main" _ r (conflict_name_ne_main now)]
  exact lookup_setKey_self _ _ _

theorem C1_amended_witness :
    (sync_with_remote sC1 "origin" "main" none netC1 .ok 5).1 =
      .ok { success := true, has_conflict := true,
            conflict_branch := some ("conflict_" ++ toString 5) } ∧
    (sync_with_remote sC1 "origin" "main" none netC1 .ok 5).2.rebaseOpen = false ∧
    (sync_with_remote sC1 "origin" "main" none netC1 .ok 5).2.branches.lookup
      ("conflict_" ++ toString 5) = some 1 ∧
    (sync_with_remote sC1 "origin" "main" none netC1 .ok 5).2.branches.lookup "main"
      = some 2 :=
  C1_amended_conflict_aborts_session sC1 "origin" "https://h/x.git" netC1 .ok 5
    1 2 0 [("a.md", "remote")] [("a.md", "x")] m1C
    (by decide) (by decide) (by decide) (by decide) (by decide) (by decide)
    (by decide) (by decide) (by decide) (by decide) (by decide) (by decide)
    (by decide) (by decide)

/-! ## Claim C9 -/

/-- The pre-sync HEAD sits on `draft` (tip 1) which is ahead of `main`
(tip 0); the remote tip 2 conflicts with the draft commit. -/
def sC9 : RepoState :=
  { store := [(0, cW), (1, m1C), (2, r1C)],
    branches := [("main", 0), ("draft", 1)],
    remoteBranches := [], head := .symbolic "draft",
    index := [{ path := "a.md", content := "local" }],
    worktree := [("a.md", "local")],
    remotes := [("origin", "https://h/x.git")],
    rebaseOpen := false, rebaseSaved := none }

def netC9 : RemoteData := { objects := [], tips := [("main", 2)] }

/-- C9 counterexample: the sync begins with HEAD on `draft` at commit 1
(the pre-sync local HEAD), hits a conflict while rebasing `draft`, and
returns `has_conflict = true` — but the created conflict branch points
at commit 0 (the `main` tip at conflict-handling time), **not** at the
pre-sync local HEAD commit 1. -/
theorem C9_counterexample :
    sC9.headId = some 1 ∧
    (sync_with_remote sC9 "origin" "main" none netC9 .ok 7).1 =
      .ok { success := true, has_conflict := true,
            conflict_branch := some "conflict_7" } ∧
    (sync_with_remote sC9 "origin" "main" none netC9 .ok 7).2.branches.lookup
      "conflict_7" = some 0 ∧
    some (0 : ObjectId) ≠ some 1 := by decide

/-- C9 amended: `handle_sync_conflict` creates `conflict_<timestamp>`
pointing at the commit HEAD resolves to *at conflict-handling time* (the
synced branch's tip after the failed rebase was aborted) — not
necessarily the pre-sync HEAD commit — verifies that this commit object
exists in the store before the reset, then resets the synced branch ref
to the remote-tracking tip and leaves HEAD as a symbolic ref to that
branch. -/
theorem C9_amended_conflict_branch (s : RepoState) (rn bn : String) (now : Nat)
    (h r : ObjectId) (d : CommitData)
    (hh : s.headId = some h)
    (hd : s.store.lookup h = some d)
    (hr : s.remoteBranches.lookup bn = some r)
    (hne : ("conflict_" ++ toString now) ≠ bn) :
    (handle_sync_conflict s rn bn now).1 = .ok ("conflict_" ++ toString now) ∧
    (handle_sync_conflict s rn bn now).2.branches.lookup ("conflict_" ++ toString now)
      = some h ∧
    (handle_sync_conflict s rn bn now).2.branches.lookup bn = some r ∧
    (handle_sync_conflict s rn bn now).2.head = .symbolic bn := by
  unfold handle_sync_conflict
  simp only [hh, hd, hr, lookup_setKey_self]
  refine ⟨trivial, ?_, trivial, trivial⟩
  rw [lookup_setKey_ne _ bn _ r hne]
  exact lookup_setKey_self _ _ _

theorem C9_amended_witness :
    (handle_sync_conflict sC5 "origin" "main" 3).1 = .ok ("conflict_" ++ toString 3) ∧
    (handle_sync_conflict sC5 "origin" "main" 3).2.branches.lookup
      ("conflict_" ++ toString 3) = some 0 ∧
    (handle_sync_conflict sC5 "origin" "main" 3).2.branches.lookup "main" = some 0 ∧
    (handle_sync_conflict sC5 "origin" "main" 3).2.head = .symbolic "main" :=
  C9_amended_conflict_branch sC5 "origin" "main" 3 0 0 cW
    (by decide) (by decide) (by decide) (by decide)

end Vana
